import Mathlib

/-!
Verification development for the ai-pricing-txt campaign manager.

The definitions below shallowly embed the repository's code:
the campaign-builder form logic from `CampaignBuilder` (front end),
the typed API contracts from `data-contracts`, and — where the
backend engine code (rule evaluator, campaign resolver,
personalization engine, catalog cache) is not part of the source
tree — models built from the specification's own wording, marked
`Modelled from the spec:` in their doc comments.
-/

namespace AiPricing

/-- Embeds the `condition` union type of the `HeaderTargetRule` interface in
`CampaignBuilder`: a closed set of seven condition tags. -/
inductive Condition where
  | equals
  | contains
  | startsWith
  | endsWith
  | matches
  | «exists»
  | notExists
deriving DecidableEq, Repr

/-- Embeds the `HeaderTargetRule` interface of `CampaignBuilder`:
header name, condition, optional value, optional negate flag
(`negate?: boolean` modelled with default `false`, as the form initialises it). -/
structure HeaderTargetRule where
  headerName : String
  condition : Condition
  value : Option String := none
  negate : Bool := false
deriving DecidableEq, Repr

/-- A product or discount identifier as it appears at runtime in the builder:
the `Product.id` field is typed `string | number`. -/
inductive IdVal where
  | str (s : String)
  | num (n : Int)
deriving DecidableEq, Repr

/-- JavaScript `String(id)` conversion applied in `handleSaveCampaign`. -/
def IdVal.toStr : IdVal → String
  | .str s => s
  | .num n => toString n

/-- Embeds the `CampaignFormData` state of `CampaignBuilder`. -/
structure CampaignFormData where
  name : String
  description : String
  startDate : String
  endDate : String
  status : String
  productIds : List IdVal
  discountIds : List IdVal
  headerTargetRules : List HeaderTargetRule
deriving Repr

/-- Embeds `handleProductSelectionChange` of `CampaignBuilder`: toggles a
product identifier in the selected list — `includes` then `filter` removes it,
otherwise it is appended with a spread. -/
def handleProductSelectionChange (productId : IdVal) (productIds : List IdVal) :
    List IdVal :=
  if productIds.contains productId then
    productIds.filter (fun id => id ≠ productId)
  else
    productIds ++ [productId]

/-- Embeds `handleDiscountSelectionChange` of `CampaignBuilder`: identical
toggle logic to the product handler, on `discountIds`. -/
def handleDiscountSelectionChange (discountId : IdVal) (discountIds : List IdVal) :
    List IdVal :=
  if discountIds.contains discountId then
    discountIds.filter (fun id => id ≠ discountId)
  else
    discountIds ++ [discountId]

/-- JavaScript falsiness of the optional `value` string as tested by
`!newHeaderRule.value`: `undefined` and the empty string are falsy. -/
def optStrFalsy : Option String → Bool
  | none => true
  | some s => s == ""

/-- Embeds `handleAddHeaderRule` of `CampaignBuilder`, restricted to its
effect on the `headerTargetRules` list: an empty header name adds nothing; for
`exists`/`notExists` the rule is appended with `value` forced to `undefined`;
for the other conditions a falsy value adds nothing, otherwise the rule is
appended as entered. -/
def handleAddHeaderRule (rules : List HeaderTargetRule)
    (newHeaderRule : HeaderTargetRule) : List HeaderTargetRule :=
  if newHeaderRule.headerName == "" then
    rules
  else if newHeaderRule.condition = .«exists» ∨ newHeaderRule.condition = .notExists then
    rules ++ [{ newHeaderRule with value := none }]
  else if optStrFalsy newHeaderRule.value then
    rules
  else
    rules ++ [newHeaderRule]

/-- Modelled from the spec: the request context consumed by the rule
evaluator — a header map whose keys compare case-insensitively, an optional
identified user email, and an optional caller IP (the backend evaluator
itself is not under `src/`). -/
structure RequestContext where
  headers : List (String × String)
  userEmail : Option String := none
  ip : Option String := none
deriving Repr

/-- Lowers an ASCII code point; other code points are untouched. -/
def lowerNat (n : Nat) : Nat := if 65 ≤ n ∧ n ≤ 90 then n + 32 else n

/-- Case-insensitive string equality, comparing ASCII-lowered code points. -/
def strCIeq (a b : String) : Bool :=
  (a.toList.map (fun c => lowerNat c.toNat)) == (b.toList.map (fun c => lowerNat c.toNat))

/-- Modelled from the spec: case-insensitive header lookup — the first entry
whose key equals the rule's header name up to case. -/
def headerLookup (headers : List (String × String)) (name : String) :
    Option String :=
  (headers.find? (fun kv => strCIeq kv.1 name)).map (fun kv => kv.2)

/-- Modelled from the spec: anchored matching for the regex subset the model
covers — literal characters, `.` (any one character) and postfix `*` (zero or
more of the preceding atom); an exhausted pattern means the search found a
match at this position. Other regex metacharacters are treated literally;
no claim below depends on the behaviour of a particular regex construct. -/
def regexMatchHere : List Char → List Char → Bool
  | [], _ => true
  | c :: '*' :: p, s =>
      regexMatchHere p s ||
        (match s with
         | [] => false
         | h :: t => (c == '.' || c == h) && regexMatchHere (c :: '*' :: p) t)
  | c :: p, h :: t => (c == '.' || c == h) && regexMatchHere p t
  | _ :: _, [] => false
termination_by p s => s.length + p.length

/-- Modelled from the spec: the `matches` condition uses search semantics —
the pattern may match anywhere in the header value, with no implicit
anchoring. -/
def regexSearch (p : List Char) : List Char → Bool
  | [] => regexMatchHere p []
  | c :: t => regexMatchHere p (c :: t) || regexSearch p t

/-- Scans for the needle as a contiguous run anywhere in the haystack. -/
def listContainsSub (needle : List Char) : List Char → Bool
  | [] => needle.isPrefixOf []
  | c :: t => needle.isPrefixOf (c :: t) || listContainsSub needle t

/-- Drops leading `*` wildcard placeholders. -/
def dropLeadingStars (l : List Char) : List Char :=
  l.dropWhile (fun c => c == '*')

/-- Drops trailing `*` wildcard placeholders. -/
def dropTrailingStars (l : List Char) : List Char :=
  (l.reverse.dropWhile (fun c => c == '*')).reverse

/-- Modelled from the spec: the base boolean of a single header-target rule,
before negation. A missing header yields the condition-specific default
(`exists` false, `notExists` true, everything else false); `equals` is exact
case-sensitive equality; `contains`/`startsWith`/`endsWith` are substring /
prefix / suffix tests after stripping `*` placeholders at the appropriate
end; `matches` uses regex search semantics; `exists`/`notExists` are presence
tests that ignore `value`; a missing required value degrades the rule to a
non-match. -/
def evaluateBase (rule : HeaderTargetRule) (ctx : RequestContext) : Bool :=
  match headerLookup ctx.headers rule.headerName with
  | none =>
      match rule.condition with
      | .notExists => true
      | _ => false
  | some hv =>
      match rule.condition with
      | .«exists» => true
      | .notExists => false
      | .equals =>
          match rule.value with
          | none => false
          | some v => hv == v
      | .contains =>
          match rule.value with
          | none => false
          | some v =>
              listContainsSub (dropTrailingStars (dropLeadingStars v.toList)) hv.toList
      | .startsWith =>
          match rule.value with
          | none => false
          | some v => (dropTrailingStars v.toList).isPrefixOf hv.toList
      | .endsWith =>
          match rule.value with
          | none => false
          | some v => (dropLeadingStars v.toList).isSuffixOf hv.toList
      | .matches =>
          match rule.value with
          | none => false
          | some v => regexSearch v.toList hv.toList

/-- Modelled from the spec: `evaluate(rule, context)` — compute the base
boolean, then apply `negate`: final = negate ? !base : base. -/
def evaluate (rule : HeaderTargetRule) (ctx : RequestContext) : Bool :=
  let base := evaluateBase rule ctx
  if rule.negate then !base else base

/-- Modelled from the spec: `evaluateAll(rules, context)` — logical AND of
`evaluate` over every rule; the empty rule list yields true. -/
def evaluateAll (rules : List HeaderTargetRule) (ctx : RequestContext) : Bool :=
  rules.all (fun r => evaluate r ctx)

/-- Embeds the `UserIdentityRule` interface of `data-contracts`: a glob-like
pattern and an allow flag. -/
structure UserIdentityRule where
  pattern : String
  allow : Bool
deriving DecidableEq, Repr

/-- Modelled from the spec: glob matching for identity-rule patterns — `*`
matches any character sequence, every other character matches literally. -/
def globMatch : List Char → List Char → Bool
  | [], [] => true
  | [], _ :: _ => false
  | '*' :: p, s =>
      globMatch p s ||
        (match s with
         | [] => false
         | _ :: t => globMatch ('*' :: p) t)
  | c :: p, h :: t => c == h && globMatch p t
  | _ :: _, [] => false
termination_by p s => s.length + p.length

/-- Campaign status values offered by the builder form. -/
inductive Status where
  | draft
  | active
  | paused
deriving DecidableEq, Repr

/-- Modelled from the spec: a campaign as the engine consumes it — status,
inclusive date window (date-only granularity, encoded as a natural number so
that the calendar order is the numeric order), product and discount
references, header-target rules and the optional identity/IP constraints.
The engine treats it as read-only; CRUD lives behind the Campaign Store. -/
structure Campaign where
  id : String
  name : String
  status : Status
  start_date : Nat
  end_date : Nat
  product_ids : List String
  discount_ids : List String
  headerTargetRules : List HeaderTargetRule
  target_authenticated_user : Option Bool := none
  target_user_identity_rules : Option (List UserIdentityRule) := none
  target_ip_ranges : Option (List String) := none
deriving DecidableEq, Repr

/-- Modelled from the spec: the authenticated-user filter — `true` requires a
user email in the context, `false` requires its absence, unset imposes no
constraint. -/
def authFilter (c : Campaign) (ctx : RequestContext) : Bool :=
  match c.target_authenticated_user with
  | none => true
  | some true => ctx.userEmail.isSome
  | some false => ctx.userEmail.isNone

/-- Modelled from the spec: the identity-rule filter — when rules are present,
at least one allow rule must match the user email and no deny rule may match
it (deny takes precedence); with no email present no allow rule can match. -/
def identityFilter (c : Campaign) (ctx : RequestContext) : Bool :=
  match c.target_user_identity_rules with
  | none => true
  | some rs =>
      match ctx.userEmail with
      | none => false
      | some e =>
          rs.any (fun r => r.allow && globMatch r.pattern.toList e.toList) &&
            !(rs.any (fun r => !r.allow && globMatch r.pattern.toList e.toList))

/-- Modelled from the spec: the IP-range filter — when ranges are present the
caller's resolved IP must fall within at least one of them; the in-range test
itself is declared out of scope by the spec, so it is taken as a parameter. -/
def ipFilter (inRange : String → String → Bool) (c : Campaign)
    (ctx : RequestContext) : Bool :=
  match c.target_ip_ranges with
  | none => true
  | some ranges =>
      match ctx.ip with
      | none => false
      | some addr => ranges.any (fun range => inRange addr range)

/-- Modelled from the spec: `resolve(campaigns, context, now)` — keep the
active campaigns whose inclusive date window contains `now`, whose rule set
passes `evaluateAll`, and which pass the authenticated-user, identity-rule
and IP-range filters; then order the survivors by `start_date` descending. -/
def resolve (inRange : String → String → Bool) (campaigns : List Campaign)
    (ctx : RequestContext) (now : Nat) : List Campaign :=
  let survivors := campaigns.filter (fun c =>
    c.status = Status.active &&
    (decide (c.start_date ≤ now) && decide (now ≤ c.end_date)) &&
    evaluateAll c.headerTargetRules ctx &&
    authFilter c ctx &&
    identityFilter c ctx &&
    ipFilter inRange c ctx)
  survivors.insertionSort (fun a b => b.start_date ≤ a.start_date)

/-- Discount value types as the personalization engine distinguishes them:
`percentage`, `fixed_amount`, and a pass-through for anything else. -/
inductive ValueType where
  | percentage
  | fixed_amount
  | other (tag : String)
deriving DecidableEq, Repr

/-- Modelled from the spec: a discount code as cached from the upstream
catalog — identifier, code, value type and numeric value. -/
structure Discount where
  id : String
  code : String
  valueType : ValueType
  value : ℚ
deriving DecidableEq, Repr

/-- Modelled from the spec: a product snapshot as cached from the upstream
catalog — identifier, title and decimal price. -/
structure Product where
  id : String
  title : String
  price : ℚ
deriving DecidableEq, Repr

/-- Tests for a value type the engine does not know how to apply. -/
def ValueType.isUnknown : ValueType → Bool
  | .other _ => true
  | _ => false

/-- Modelled from the spec: discount arithmetic — `fixed_amount` subtracts a
flat value floored at zero, `percentage` multiplies the price by
`(1 - value/100)`, and an unknown value type does not produce a price. -/
def applyDiscount (price : ℚ) (d : Discount) : Option ℚ :=
  match d.valueType with
  | .percentage => some (price * (1 - d.value / 100))
  | .fixed_amount => some (max (price - d.value) 0)
  | .other _ => none

/-- Modelled from the spec: the discounts applicable to a product — those
referenced by a resolved campaign that also lists the product. -/
def discountsFor (resolved : List Campaign) (discounts : List Discount)
    (pid : String) : List Discount :=
  discounts.filter (fun d =>
    resolved.any (fun c => c.product_ids.contains pid && c.discount_ids.contains d.id))

/-- Folding step of the best-discount selection: keep the candidate price and
code when it is strictly lower than the best seen so far. -/
def pickStep (price : ℚ) (acc : ℚ × Option String) (d : Discount) :
    ℚ × Option String :=
  match applyDiscount price d with
  | none => acc
  | some fp => if fp < acc.1 then (fp, some d.code) else acc

/-- Modelled from the spec: choose among the applicable discounts the one
yielding the lowest final price, starting from the undiscounted price with no
code applied; discounts with unknown value types are skipped. -/
def pickBest (price : ℚ) (ds : List Discount) : ℚ × Option String :=
  ds.foldl (pickStep price) (price, none)

/-- Modelled from the spec: one entry of the personalized result — the
product with its original price preserved, its final price, the applied
discount code if any, and a flag set when an unknown value type was seen. -/
structure PricedProduct where
  product : Product
  original_price : ℚ
  final_price : ℚ
  applied_discount_code : Option String
  flagged : Bool
deriving DecidableEq, Repr

/-- Modelled from the spec: `personalize(resolvedCampaigns, catalog)` — the
candidate products are the union of the resolved campaigns' product
references — gathered as a concatenation, which a membership test reads as a
set — intersected with the cached products (unknown identifiers are
dropped); each candidate gets the best applicable discount. -/
def personalize (resolved : List Campaign) (products : List Product)
    (discounts : List Discount) : List PricedProduct :=
  let pids := resolved.foldr (fun c acc => c.product_ids ++ acc) []
  (products.filter (fun p => pids.contains p.id)).map (fun p =>
    let ds := discountsFor resolved discounts p.id
    let best := pickBest p.price ds
    { product := p
      original_price := p.price
      final_price := best.1
      applied_discount_code := best.2
      flagged := ds.any (fun d => d.valueType.isUnknown) })

/-- Modelled from the spec: the snapshot held by the Catalog Cache —
products, discounts and the `as_of` fetch timestamp. -/
structure CatalogSnapshot where
  products : List Product
  discounts : List Discount
  as_of : Nat
deriving DecidableEq, Repr

/-- Modelled from the spec: the Catalog Cache state — the last successfully
fetched snapshot, if any, and a degraded-health flag. -/
structure CatalogCache where
  snapshot : Option CatalogSnapshot
  degraded : Bool
deriving DecidableEq, Repr

/-- Modelled from the spec: `refresh()` — a successful upstream fetch
atomically installs the new snapshot and clears the degraded flag; a failed
fetch leaves the prior snapshot intact and marks the cache degraded. -/
def CatalogCache.refresh (cache : CatalogCache)
    (fetchResult : Except String CatalogSnapshot) : CatalogCache :=
  match fetchResult with
  | .ok snap => { snapshot := some snap, degraded := false }
  | .error _ => { cache with degraded := true }

/-- Modelled from the spec: `get()` — the cache answers reads from the last
successfully fetched snapshot. -/
def CatalogCache.get (cache : CatalogCache) : Option CatalogSnapshot :=
  cache.snapshot

/-- Embeds the shape of the header rules sent by `handleSaveCampaign`:
`headerName` is renamed to `header_name`; condition, value and negate are
copied unchanged. -/
structure ApiHeaderRule where
  header_name : String
  condition : Condition
  value : Option String
  negate : Bool
deriving DecidableEq, Repr

/-- Embeds the request body actually constructed by `handleSaveCampaign`,
including the `header_target_rules` field it adds beyond the typed
`CampaignCreationRequest` contract of `data-contracts` (which declares no
such field). -/
structure CampaignData where
  name : String
  description : String
  start_date : String
  end_date : String
  status : String
  product_ids : List String
  discount_ids : List String
  header_target_rules : Option (List ApiHeaderRule)
deriving Repr

/-- Embeds the typed `CampaignCreationRequest` interface of `data-contracts`,
restricted to the fields `handleSaveCampaign` populates: it has no
`header_target_rules` field. -/
structure CampaignCreationRequest where
  name : String
  description : String
  start_date : String
  end_date : String
  status : String
  product_ids : List String
  discount_ids : List String
deriving Repr

/-- Embeds the body construction of `handleSaveCampaign`: header rules are
renamed to snake case, the `header_target_rules` field is set only when at
least one rule is configured (`headerRules.length > 0 ? headerRules :
undefined`), and the selected product and discount identifiers are converted
to strings. -/
def handleSaveCampaign (formData : CampaignFormData)
    (headerTargetRules : List HeaderTargetRule) : CampaignData :=
  let headerRules := headerTargetRules.map (fun rule =>
    { header_name := rule.headerName
      condition := rule.condition
      value := rule.value
      negate := rule.negate : ApiHeaderRule })
  { name := formData.name
    description := formData.description
    start_date := formData.startDate
    end_date := formData.endDate
    status := formData.status
    product_ids := formData.productIds.map IdVal.toStr
    discount_ids := formData.discountIds.map IdVal.toStr
    header_target_rules := if headerRules.length > 0 then some headerRules else none }

/-- Concrete active campaign started 2024-01-01, used in the resolver
ordering scenario. -/
def campJan : Campaign :=
  { id := "c1", name := "Jan", status := .active, start_date := 20240101
    end_date := 20241231, product_ids := [], discount_ids := []
    headerTargetRules := [] }

/-- Concrete active campaign started 2024-02-01, used in the resolver
ordering scenario. -/
def campFeb : Campaign :=
  { id := "c2", name := "Feb", status := .active, start_date := 20240201
    end_date := 20241231, product_ids := [], discount_ids := []
    headerTargetRules := [] }

/-- Concrete campaign listing one product and three discounts, used to
exercise the personalization engine. -/
def campPromo : Campaign :=
  { id := "c3", name := "Promo", status := .active, start_date := 0
    end_date := 9, product_ids := ["p1"]
    discount_ids := ["d1", "d2", "d3"], headerTargetRules := [] }

/-- Concrete product with price 100. -/
def prodOne : Product := { id := "p1", title := "T", price := 100 }

/-- Concrete percentage discount of 20 percent. -/
def discPct20 : Discount :=
  { id := "d1", code := "PCT20", valueType := .percentage, value := 20 }

/-- Concrete fixed-amount discount of 60. -/
def discFix60 : Discount :=
  { id := "d2", code := "FIX60", valueType := .fixed_amount, value := 60 }

/-- Concrete discount with an unknown value type. -/
def discWeird : Discount :=
  { id := "d3", code := "WEIRD", valueType := .other "bogus", value := 5 }

/-- The personalized entry expected for `prodOne` under `campPromo`: the
fixed-amount discount yields the lowest price (40), and the unknown value
type sets the flag. -/
def entryPromo : PricedProduct :=
  { product := prodOne, original_price := 100, final_price := 40
    applied_discount_code := some "FIX60", flagged := true }

/-- C2: every constructible `HeaderTargetRule` has a condition drawn from the
closed set of seven tags — `equals`, `contains`, `startsWith`, `endsWith`,
`matches`, `exists`, `notExists`; the condition is a closed tagged variant,
so an unknown condition cannot be built at all (a construction-time error
rather than a silent non-match at evaluation time). -/
theorem headerTargetRule_condition_closed (rule : HeaderTargetRule) :
    rule.condition = Condition.equals ∨ rule.condition = Condition.contains ∨
    rule.condition = Condition.startsWith ∨ rule.condition = Condition.endsWith ∨
    rule.condition = Condition.matches ∨ rule.condition = Condition.«exists» ∨
    rule.condition = Condition.notExists := by
  cases rule.condition <;> simp

/-- C4: `evaluateAll` is the logical AND of `evaluate` over every rule in the
list, and the empty rule list yields true for every context — a campaign with
zero header-target rules passes the header check for all traffic. -/
theorem evaluateAll_is_and (rules : List HeaderTargetRule) (ctx : RequestContext) :
    (evaluateAll rules ctx = true ↔ ∀ r ∈ rules, evaluate r ctx = true) ∧
    evaluateAll [] ctx = true := by
  constructor
  · simp [evaluateAll, List.all_eq_true]
  · rfl

/-- C5: negation inverts exactly — for every header-target rule and every
request context, evaluating the rule with `negate := true` returns the
boolean negation of evaluating the same rule with `negate := false`, for each
of the seven conditions. -/
theorem negate_inverts (rule : HeaderTargetRule) (ctx : RequestContext) :
    evaluate { rule with negate := true } ctx =
      !evaluate { rule with negate := false } ctx := by
  obtain ⟨hn, cond, val, neg⟩ := rule
  have hbase :
      evaluateBase ⟨hn, cond, val, true⟩ ctx = evaluateBase ⟨hn, cond, val, false⟩ ctx :=
    rfl
  simp [evaluate, hbase]

/-- C8: a failed Catalog Cache refresh after a successful prior fetch leaves
`get()` returning the prior snapshot unchanged with the degraded flag set; a
failed refresh never replaces or empties the cached snapshot. -/
theorem refresh_failure_keeps_snapshot (cache : CatalogCache)
    (snap : CatalogSnapshot) (err : String) (h : cache.snapshot = some snap) :
    (cache.refresh (Except.error err)).get = some snap ∧
    (cache.refresh (Except.error err)).get = cache.get ∧
    (cache.refresh (Except.error err)).degraded = true := by
  simp [CatalogCache.refresh, CatalogCache.get, h]

/-- Closed instantiation of `refresh_failure_keeps_snapshot` at a concrete
cache holding a snapshot, with the refresh failure given explicitly. -/
theorem refresh_failure_keeps_snapshot_witness :
    ((⟨some ⟨[], [], 5⟩, false⟩ : CatalogCache).refresh
        (Except.error "upstream timeout")).get = some ⟨[], [], 5⟩ ∧
    ((⟨some ⟨[], [], 5⟩, false⟩ : CatalogCache).refresh
        (Except.error "upstream timeout")).get =
      (⟨some ⟨[], [], 5⟩, false⟩ : CatalogCache).get ∧
    ((⟨some ⟨[], [], 5⟩, false⟩ : CatalogCache).refresh
        (Except.error "upstream timeout")).degraded = true :=
  refresh_failure_keeps_snapshot ⟨some ⟨[], [], 5⟩, false⟩ ⟨[], [], 5⟩
    "upstream timeout" rfl

/-- C10: the request body built by `handleSaveCampaign` carries the
`header_target_rules` field exactly when at least one header rule is
configured (it is `undefined` for an empty rule list), each included rule has
`headerName` renamed to `header_name` with condition, value and negate copied
unchanged, and `product_ids`/`discount_ids` are the selected identifiers
converted to strings — all of this even though the typed
`CampaignCreationRequest` contract declares no `header_target_rules` field. -/
theorem handleSaveCampaign_body (formData : CampaignFormData)
    (rules : List HeaderTargetRule) :
    (handleSaveCampaign formData rules).header_target_rules =
      (if 0 < rules.length then
        some (rules.map (fun r => ⟨r.headerName, r.condition, r.value, r.negate⟩))
      else none) ∧
    ((handleSaveCampaign formData rules).header_target_rules = none ↔ rules = []) ∧
    (handleSaveCampaign formData rules).product_ids =
      formData.productIds.map IdVal.toStr ∧
    (handleSaveCampaign formData rules).discount_ids =
      formData.discountIds.map IdVal.toStr ∧
    (handleSaveCampaign formData rules).name = formData.name ∧
    (handleSaveCampaign formData rules).start_date = formData.startDate ∧
    (handleSaveCampaign formData rules).end_date = formData.endDate ∧
    (handleSaveCampaign formData rules).status = formData.status := by
  refine ⟨?_, ?_, rfl, rfl, rfl, rfl, rfl, rfl⟩
  · simp [handleSaveCampaign, List.length_map]
  · cases rules <;> simp [handleSaveCampaign]

/-- C1: for every header-target rule whose condition is `exists` or
`notExists` and every request context, the result is independent of any
supplied value — two rules identical except for their value field evaluate to
the same boolean — and `handleAddHeaderRule` stores such a rule with value
set to `undefined` regardless of what value was entered, for every form
state. -/
theorem exists_conditions_value_independent :
    (∀ (rule : HeaderTargetRule) (ctx : RequestContext) (v₁ v₂ : Option String),
        rule.condition = Condition.«exists» ∨ rule.condition = Condition.notExists →
        evaluate { rule with value := v₁ } ctx = evaluate { rule with value := v₂ } ctx) ∧
    (∀ (rules : List HeaderTargetRule) (newHeaderRule : HeaderTargetRule),
        newHeaderRule.condition = Condition.«exists» ∨
          newHeaderRule.condition = Condition.notExists →
        handleAddHeaderRule rules newHeaderRule = rules ∨
          handleAddHeaderRule rules newHeaderRule =
            rules ++ [{ newHeaderRule with value := none }]) := by
  constructor
  · intro rule ctx v₁ v₂ h
    obtain ⟨hn, cond, val, neg⟩ := rule
    have hbase :
        evaluateBase ⟨hn, cond, v₁, neg⟩ ctx = evaluateBase ⟨hn, cond, v₂, neg⟩ ctx := by
      rcases h with h | h <;> dsimp only at h <;> subst h <;>
        · unfold evaluateBase
          cases headerLookup ctx.headers hn <;> rfl
    simp [evaluate, hbase]
  · intro rules nr h
    rcases h with h | h <;>
      · by_cases h1 : (nr.headerName == "") = true
        · exact Or.inl (by simp [handleAddHeaderRule, h1])
        · exact Or.inr (by simp [handleAddHeaderRule, h1, h])

/-- Closed instantiation: a concrete `exists` rule evaluates the same for two
different supplied values, and a concrete `notExists` rule is stored with its
value dropped. -/
theorem exists_conditions_value_independent_witness :
    (evaluate ⟨"X-Foo", Condition.«exists», some "a", false⟩
        ⟨[("x-FOO", "1")], none, none⟩ =
      evaluate ⟨"X-Foo", Condition.«exists», none, false⟩
        ⟨[("x-FOO", "1")], none, none⟩) ∧
    (handleAddHeaderRule [] ⟨"H", Condition.notExists, some "typed", false⟩ = [] ∨
      handleAddHeaderRule [] ⟨"H", Condition.notExists, some "typed", false⟩ =
        [] ++ [⟨"H", Condition.notExists, none, false⟩]) :=
  ⟨exists_conditions_value_independent.1
      ⟨"X-Foo", Condition.«exists», some "a", false⟩
      ⟨[("x-FOO", "1")], none, none⟩ (some "a") none (Or.inl rfl),
    exists_conditions_value_independent.2 []
      ⟨"H", Condition.notExists, some "typed", false⟩ (Or.inr rfl)⟩

/-- C3: `handleAddHeaderRule` leaves the header-rule list unchanged whenever
the new rule's header name is empty, or its condition is neither `exists` nor
`notExists` and its value is missing or empty; in every other case it appends
exactly one rule at the end, leaving the previously added rules unchanged and
in order. -/
theorem handleAddHeaderRule_appends_or_skips (rules : List HeaderTargetRule)
    (nr : HeaderTargetRule) :
    ((nr.headerName = "" ∨
        (nr.condition ≠ Condition.«exists» ∧ nr.condition ≠ Condition.notExists ∧
          optStrFalsy nr.value = true)) →
      handleAddHeaderRule rules nr = rules) ∧
    ((nr.headerName ≠ "" ∧
        (nr.condition = Condition.«exists» ∨ nr.condition = Condition.notExists ∨
          optStrFalsy nr.value = false)) →
      ∃ r, handleAddHeaderRule rules nr = rules ++ [r]) := by
  constructor
  · rintro (h | ⟨h1, h2, h3⟩)
    · simp [handleAddHeaderRule, h]
    · unfold handleAddHeaderRule
      by_cases hA : (nr.headerName == "") = true
      · rw [if_pos hA]
      · rw [if_neg hA, if_neg (not_or.mpr ⟨h1, h2⟩), if_pos h3]
  · rintro ⟨h1, h2⟩
    unfold handleAddHeaderRule
    rw [if_neg (by simpa using h1)]
    rcases h2 with h | h | h
    · rw [if_pos (Or.inl h)]; exact ⟨_, rfl⟩
    · rw [if_pos (Or.inr h)]; exact ⟨_, rfl⟩
    · by_cases hb : nr.condition = Condition.«exists» ∨ nr.condition = Condition.notExists
      · rw [if_pos hb]; exact ⟨_, rfl⟩
      · rw [if_neg hb, if_neg (by simp [h])]; exact ⟨_, rfl⟩

/-- Closed instantiation: an empty header name adds nothing, and a complete
`equals` rule is appended as the single new final element. -/
theorem handleAddHeaderRule_appends_or_skips_witness :
    handleAddHeaderRule [] ⟨"", Condition.equals, some "x", false⟩ = [] ∧
    ∃ r, handleAddHeaderRule [] ⟨"H", Condition.equals, some "x", false⟩ = [] ++ [r] :=
  ⟨(handleAddHeaderRule_appends_or_skips [] ⟨"", Condition.equals, some "x", false⟩).1
      (Or.inl rfl),
    (handleAddHeaderRule_appends_or_skips [] ⟨"H", Condition.equals, some "x", false⟩).2
      ⟨by decide, Or.inr (Or.inr (by decide))⟩⟩

/-- Toggling preserves the no-duplicates invariant of the selected-product
list: removal filters every copy out, and an identifier is appended only when
absent. -/
theorem handleProductSelectionChange_nodup (id : IdVal) (l : List IdVal)
    (h : l.Nodup) : (handleProductSelectionChange id l).Nodup := by
  unfold handleProductSelectionChange
  split
  · exact h.filter _
  · next hc =>
      have hid : id ∉ l := by simpa using hc
      simp [List.nodup_append, h, hid]

/-- Toggling preserves the no-duplicates invariant of the selected-discount
list; the discount handler's body is that of the product handler. -/
theorem handleDiscountSelectionChange_nodup (id : IdVal) (l : List IdVal)
    (h : l.Nodup) : (handleDiscountSelectionChange id l).Nodup :=
  handleProductSelectionChange_nodup id l h

/-- Folding any sequence of product toggles over a duplicate-free list keeps
it duplicate-free. -/
theorem foldl_product_toggle_nodup (ops : List IdVal) :
    ∀ l : List IdVal, l.Nodup →
      (ops.foldl (fun acc id => handleProductSelectionChange id acc) l).Nodup := by
  induction ops with
  | nil => intro l h; exact h
  | cons o ops ih =>
      intro l h
      exact ih _ (handleProductSelectionChange_nodup o l h)

/-- Folding any sequence of discount toggles over a duplicate-free list keeps
it duplicate-free. -/
theorem foldl_discount_toggle_nodup (ops : List IdVal) :
    ∀ l : List IdVal, l.Nodup →
      (ops.foldl (fun acc id => handleDiscountSelectionChange id acc) l).Nodup := by
  induction ops with
  | nil => intro l h; exact h
  | cons o ops ih =>
      intro l h
      exact ih _ (handleDiscountSelectionChange_nodup o l h)

/-- C9: starting from the initial empty selection, the campaign form's
product and discount identifier lists never contain a duplicate identifier —
each toggle handler removes an already-selected identifier and appends it
exactly once otherwise, so after every sequence of toggle calls each
identifier occurs at most once, and every other selected identifier's
membership is unchanged by a toggle. -/
theorem selection_toggle_no_duplicates :
    (∀ ops : List IdVal,
        (ops.foldl (fun acc id => handleProductSelectionChange id acc) []).Nodup) ∧
    (∀ ops : List IdVal,
        (ops.foldl (fun acc id => handleDiscountSelectionChange id acc) []).Nodup) ∧
    (∀ (id other : IdVal) (l : List IdVal), other ≠ id →
        (other ∈ handleProductSelectionChange id l ↔ other ∈ l)) ∧
    (∀ (id other : IdVal) (l : List IdVal), other ≠ id →
        (other ∈ handleDiscountSelectionChange id l ↔ other ∈ l)) := by
  refine ⟨fun ops => foldl_product_toggle_nodup ops [] List.nodup_nil,
    fun ops => foldl_discount_toggle_nodup ops [] List.nodup_nil, ?_, ?_⟩
  · intro id other l hne
    unfold handleProductSelectionChange
    split
    · simp [List.mem_filter, hne]
    · simp [hne]
  · intro id other l hne
    unfold handleDiscountSelectionChange
    split
    · simp [List.mem_filter, hne]
    · simp [hne]

/-- Closed instantiation: toggling identifier `a` leaves the distinct
selected identifier `b` in place, for both handlers. -/
theorem selection_toggle_no_duplicates_witness :
    ((IdVal.str "b") ∈ handleProductSelectionChange (IdVal.str "a") [IdVal.str "b"] ↔
      (IdVal.str "b") ∈ [IdVal.str "b"]) ∧
    ((IdVal.str "b") ∈ handleDiscountSelectionChange (IdVal.str "a") [IdVal.str "b"] ↔
      (IdVal.str "b") ∈ [IdVal.str "b"]) :=
  ⟨selection_toggle_no_duplicates.2.2.1 (IdVal.str "a") (IdVal.str "b")
      [IdVal.str "b"] (by decide),
    selection_toggle_no_duplicates.2.2.2 (IdVal.str "a") (IdVal.str "b")
      [IdVal.str "b"] (by decide)⟩

/-- The best-discount fold never increases the running best price, and its
result is bounded by every final price an applicable discount yields. -/
theorem pickStep_foldl_le (price : ℚ) (ds : List Discount) :
    ∀ acc : ℚ × Option String,
      (ds.foldl (pickStep price) acc).1 ≤ acc.1 ∧
      ∀ d ∈ ds, ∀ fp, applyDiscount price d = some fp →
        (ds.foldl (pickStep price) acc).1 ≤ fp := by
  induction ds with
  | nil =>
      intro acc
      exact ⟨le_refl _, by simp⟩
  | cons d ds ih =>
      intro acc
      simp only [List.foldl_cons]
      have hstep : (pickStep price acc d).1 ≤ acc.1 := by
        unfold pickStep
        cases h : applyDiscount price d with
        | none => exact le_refl _
        | some fp =>
            dsimp only
            split
            · next hlt => exact le_of_lt hlt
            · exact le_refl _
      have hd : ∀ fp, applyDiscount price d = some fp →
          (pickStep price acc d).1 ≤ fp := by
        intro fp hfp
        unfold pickStep
        rw [hfp]
        dsimp only
        split
        · exact le_refl fp
        · next hnlt => exact le_of_not_lt hnlt
      obtain ⟨ih1, ih2⟩ := ih (pickStep price acc d)
      refine ⟨le_trans ih1 hstep, ?_⟩
      intro e he fp hfp
      rcases List.mem_cons.mp he with rfl | he'
      · exact le_trans ih1 (hd fp hfp)
      · exact ih2 e he' fp hfp

/-- C6: for every candidate product, `personalize` collects the discounts
referenced by resolved campaigns that list that product and picks the one
yielding the lowest final price; `fixed_amount` subtracts a flat value
floored at zero (price 50 with value 60 gives final price 0, never negative)
and `percentage` multiplies the price by one minus value over one hundred
(price 100 with value 20 gives 80); a discount with an unknown value type
yields no price — leaving the product undiscounted when no known type
applies — and its presence flags the entry. -/
theorem personalize_picks_lowest (resolved : List Campaign)
    (products : List Product) (discounts : List Discount) :
    (∀ entry ∈ personalize resolved products discounts,
        entry.final_price ≤ entry.original_price ∧
        (∀ d ∈ discountsFor resolved discounts entry.product.id, ∀ fp,
            applyDiscount entry.original_price d = some fp →
            entry.final_price ≤ fp) ∧
        (entry.flagged = true ↔
          ∃ d ∈ discountsFor resolved discounts entry.product.id,
            d.valueType.isUnknown = true)) ∧
    applyDiscount 100 discPct20 = some 80 ∧
    applyDiscount 50 discFix60 = some 0 ∧
    (∀ price : ℚ, applyDiscount price discWeird = none) := by
  refine ⟨?_, ?_, ?_, fun price => rfl⟩
  · intro entry hentry
    unfold personalize at hentry
    simp only [List.mem_map, List.mem_filter] at hentry
    obtain ⟨p, ⟨hp, _⟩, rfl⟩ := hentry
    refine ⟨?_, ?_, ?_⟩
    · exact (pickStep_foldl_le p.price
        (discountsFor resolved discounts p.id) (p.price, none)).1
    · intro d hd fp hfp
      exact (pickStep_foldl_le p.price
        (discountsFor resolved discounts p.id) (p.price, none)).2 d hd fp hfp
    · simp [List.any_eq_true]
  · norm_num [applyDiscount, discPct20]
  · norm_num [applyDiscount, discFix60]

/-- Closed instantiation: under the concrete promo campaign the personalized
entry for the price-100 product is bounded by its original price and flagged
by the unknown-value-type discount. -/
theorem personalize_picks_lowest_witness :
    entryPromo.final_price ≤ entryPromo.original_price ∧
    entryPromo.flagged = true := by
  have hpers : personalize [campPromo] [prodOne] [discPct20, discFix60, discWeird] =
      [entryPromo] := by
    norm_num [personalize, discountsFor, pickBest, pickStep, applyDiscount, campPromo,
      prodOne, discPct20, discFix60, discWeird, entryPromo, ValueType.isUnknown]
  have h := (personalize_picks_lowest [campPromo] [prodOne]
      [discPct20, discFix60, discWeird]).1 entryPromo (by rw [hpers]; exact List.mem_singleton_self _)
  exact ⟨h.1, h.2.2.mpr ⟨discWeird, by decide, rfl⟩⟩

/-- C7: `resolve` orders the surviving campaigns by start date descending —
in the returned list every campaign's start date is at least that of every
campaign after it — and in the concrete scenario of two active, in-window,
rule-matching campaigns started 2024-01-01 and 2024-02-01, the February
campaign comes first. -/
theorem resolve_orders_by_start_date_desc (inRange : String → String → Bool)
    (campaigns : List Campaign) (ctx : RequestContext) (now : Nat) :
    List.Pairwise (fun a b => b.start_date ≤ a.start_date)
      (resolve inRange campaigns ctx now) ∧
    resolve (fun _ _ => false) [campJan, campFeb] ⟨[], none, none⟩ 20240215 =
      [campFeb, campJan] := by
  constructor
  · haveI htot : IsTotal Campaign (fun a b => b.start_date ≤ a.start_date) :=
      ⟨fun a b => (Nat.le_total a.start_date b.start_date).symm⟩
    haveI htrans : IsTrans Campaign (fun a b => b.start_date ≤ a.start_date) :=
      ⟨fun _ _ _ hab hbc => le_trans hbc hab⟩
    exact List.sorted_insertionSort _ _
  · decide

end AiPricing
